import Mathlib

/-!
Verification development for the vault-risk-framework calibration pipeline.

The development shallowly embeds the three source files:
  calibration/categorize.py        (keyword classifier and dataset processor)
  calibration/compute_base_rates.py (per-category annualized base rates)
  examples/vault_risk_profile.py    (independent-risk combiner)

CSV rows are embedded as association lists from field name to field value
(the shape produced by csv.DictReader: every value is a string, keys are
distinct). Python floats are embedded as rationals; a Python expression
that can raise an exception is embedded as an Option, with none standing
for the raised exception. Console and string formatting of the source
(percent strings, basis points, report printing) is reporting-only and is
not part of the embedding.
-/

/-- A CSV row as csv.DictReader yields it: field name to string value. -/
abbrev Row := List (String × String)

/-- Embedding of row.get(k): the value of the first binding of k, if any. -/
def rowGet (row : Row) (k : String) : Option String :=
  (row.find? (fun e => e.1 == k)).map (fun e => e.2)

/-- Embedding of row.get(k, d) with a string default. -/
def rowGetD (row : Row) (k d : String) : String :=
  (rowGet row k).getD d

/-- Embedding of the Python test (k in row). -/
def hasKey (row : Row) (k : String) : Bool :=
  (rowGet row k).isSome

/-- Value of a list of decimal digit characters, most significant first. -/
def digitsToNat (cs : List Char) : Nat :=
  cs.foldl (fun n c => 10 * n + (c.toNat - 48)) 0

/-- Parser for an unsigned decimal literal: digits, an optional dot, and
optional fraction digits, with at least one digit overall. -/
def pyFloatUnsigned (cs : List Char) : Option ℚ :=
  match cs.span (fun c => c != '.') with
  | (intPart, []) =>
    if intPart ≠ [] ∧ intPart.all Char.isDigit then
      some (digitsToNat intPart : ℚ)
    else none
  | (intPart, _ :: fracPart) =>
    if (intPart ≠ [] ∨ fracPart ≠ []) ∧ intPart.all Char.isDigit ∧ fracPart.all Char.isDigit then
      some ((digitsToNat intPart : ℚ) + (digitsToNat fracPart : ℚ) / (10 : ℚ) ^ fracPart.length)
    else none

/-- Embedding of the Python builtin float applied to a string: it succeeds
on plain (optionally signed) decimal literals and raises ValueError, here
none, on anything else. Exponent forms, infinities and whitespace
trimming, which the builtin also accepts, are outside the fragment this
development evaluates and are not modelled. -/
def pyFloat (s : String) : Option ℚ :=
  match s.toList with
  | '+' :: rest => pyFloatUnsigned rest
  | '-' :: rest => (pyFloatUnsigned rest).map (fun q => -q)
  | cs => pyFloatUnsigned cs

/-- Embedding of row.get("technique", row.get("classification", "")). -/
def resolveTechnique (row : Row) : String :=
  (rowGet row "technique").getD ((rowGet row "classification").getD "")

/-- Embedding of row.get("targetType", row.get("target_type", "")). -/
def resolveTarget (row : Row) : String :=
  (rowGet row "targetType").getD ((rowGet row "target_type").getD "")

/-- Embedding of row.get("amount", row.get("amount_m", 0)) as the raw field
value: the amount field if present, else the amount_m field if present. -/
def amountRaw (row : Row) : Option String :=
  match rowGet row "amount" with
  | some v => some v
  | none => rowGet row "amount_m"

/-- Embedding of float(row.get("amount", row.get("amount_m", 0)) or 0).
When neither field is present the Python default 0 converts to 0.0; when
the resolved field is the empty string, which is falsy, the (or 0) gives
0.0; otherwise float is applied to the string and may raise, giving none. -/
def resolveAmount (row : Row) : Option ℚ :=
  match amountRaw row with
  | none => some 0
  | some s => if s = "" then some 0 else pyFloat s

/-- Embedding of the Python string method lower, character by character. -/
def strLower (s : String) : String :=
  String.mk (s.data.map Char.toLower)

/-- Whitespace removed from both ends of a character list. -/
def trimChars (cs : List Char) : List Char :=
  ((cs.dropWhile Char.isWhitespace).reverse.dropWhile Char.isWhitespace).reverse

/-- Embedding of the Python string method strip with no argument. -/
def strTrim (s : String) : String :=
  String.mk (trimChars s.data)

/-- Unanchored substring test, the embedding of the Python operator
(kw in text) on strings. -/
def substrB (kw text : String) : Bool :=
  decide (kw.toList <:+: text.toList)

/-- CONTRACT keyword list of PRIMITIVE_KEYWORDS, verbatim from the source. -/
def CONTRACT_KEYWORDS : List String :=
  ["reentrancy", "access control", "logic error", "flash loan",
   "flashloan", "overflow", "underflow", "rounding", "protocol logic",
   "smart contract", "infinite mint", "integer", "input validation",
   "front-end", "uninitialized", "delegate", "self-destruct",
   "constructor", "signature", "replay", "compiler", "language"]

/-- OPERATIONAL keyword list of PRIMITIVE_KEYWORDS, verbatim from the source. -/
def OPERATIONAL_KEYWORDS : List String :=
  ["key compromise", "private key", "bridge", "frontend", "dns",
   "infrastructure", "social engineering", "insider", "supply chain",
   "compromised", "phishing", "stolen key", "hot wallet", "cold wallet",
   "internal", "employee", "credential"]

/-- ORACLE keyword list of PRIMITIVE_KEYWORDS, verbatim from the source. -/
def ORACLE_KEYWORDS : List String :=
  ["oracle manipulation", "price feed", "stale price", "twap",
   "oracle failure", "price oracle", "oracle", "price manipulation"]

/-- GOVERNANCE keyword list of PRIMITIVE_KEYWORDS, verbatim from the source. -/
def GOVERNANCE_KEYWORDS : List String :=
  ["rug pull", "rugpull", "admin key", "malicious upgrade",
   "governance attack", "backdoor", "owner"]

/-- Test whether some keyword of the list occurs in the text, the embedding
of one for-loop of categorize_exploit. -/
def anyKeyword (kws : List String) (text : String) : Bool :=
  kws.any (fun kw => substrB kw text)

/-- Embedding of categorize_exploit: lower-case the space-joined inputs and
return the first category whose keyword list matches, checking GOVERNANCE,
then ORACLE, then OPERATIONAL, then CONTRACT, with fallback CONTRACT. -/
def categorize_exploit (technique : String) (target_type : String) : String :=
  let text := strLower (technique ++ " " ++ target_type)
  if anyKeyword GOVERNANCE_KEYWORDS text then "GOVERNANCE"
  else if anyKeyword ORACLE_KEYWORDS text then "ORACLE"
  else if anyKeyword OPERATIONAL_KEYWORDS text then "OPERATIONAL"
  else if anyKeyword CONTRACT_KEYWORDS text then "CONTRACT"
  else "CONTRACT"

/-- Prioritized category table in the evaluation order of the source. -/
def PRECEDENCE : List (String × List String) :=
  [("GOVERNANCE", GOVERNANCE_KEYWORDS), ("ORACLE", ORACLE_KEYWORDS),
   ("OPERATIONAL", OPERATIONAL_KEYWORDS), ("CONTRACT", CONTRACT_KEYWORDS)]

/-- Modelled from the spec: classification as a prioritized sequence of
(Category, keyword list) pairs evaluated first-match-wins over the
lower-cased space-joined text, with fallback CONTRACT. Used to state the
refinement claim about evaluation order. -/
def firstMatchCategory (technique : String) (target_type : String) : String :=
  let text := strLower (technique ++ " " ++ target_type)
  match PRECEDENCE.find? (fun c => anyKeyword c.2 text) with
  | some c => c.1
  | none => "CONTRACT"

/-- CEFI_KEYWORDS of categorize_dataset, verbatim from the source. -/
def CEFI_KEYWORDS : List String :=
  ["centralized exchange", "cefi", "custodian", "mt. gox", "mt gox",
   "bitfinex", "coincheck", "zaif", "cryptopia", "quadrigacx"]

/-- Embedding of the CeFi test of filter 3: some CeFi keyword occurs in the
lower-cased name, technique and target text. -/
def isCefi (row : Row) : Bool :=
  let text :=
    strLower (rowGetD row "name" "" ++ " " ++ resolveTechnique row ++ " " ++ resolveTarget row)
  CEFI_KEYWORDS.any (fun kw => substrB kw text)

/-- Embedding of one iteration of the reading loop of categorize_dataset:
resolve the amount (which may raise), then in raw mode apply the
de-minimis filter with a 0.1 threshold when an amount_m field is present
and a 100000 threshold otherwise, then the CeFi exclusion; surviving rows
are appended. -/
def phase1Step (raw_mode : Bool) (acc : List Row) (row : Row) : Option (List Row) :=
  match resolveAmount row with
  | none => none
  | some amount =>
    if raw_mode then
      if hasKey row "amount_m" then
        if amount < 1 / 10 then some acc
        else if isCefi row then some acc
        else some (acc ++ [row])
      else if amount < 100000 then some acc
      else if isCefi row then some acc
      else some (acc ++ [row])
    else some (acc ++ [row])

/-- Embedding of the whole reading loop of categorize_dataset. -/
def phase1 (rows : List Row) (raw_mode : Bool) : Option (List Row) :=
  rows.foldlM (phase1Step raw_mode) []

/-- Deduplication key: the lower-cased trimmed name (preferring the
name_lower field) joined to the date field by a vertical bar. -/
def dedupKey (row : Row) : String :=
  strTrim (strLower ((rowGet row "name_lower").getD ((rowGet row "name").getD "")))
    ++ "|" ++ rowGetD row "date" ""

/-- Lookup in the embedded insertion-ordered dict of seen rows. -/
def lookupSeen (seen : List (String × Row)) (key : String) : Option Row :=
  (seen.find? (fun e => e.1 == key)).map (fun e => e.2)

/-- Assignment seen[key] = row for a key already present: the binding is
replaced in place, keeping the insertion position, as a Python dict does. -/
def updateSeen (seen : List (String × Row)) (key : String) (row : Row) : List (String × Row) :=
  seen.map (fun e => if e.1 == key then (key, row) else e)

/-- Embedding of one iteration of the deduplication loop: the amounts of
the new row, and of the stored row on a key collision, are resolved (and
may raise); the stored row is replaced exactly when the new amount is
strictly larger. -/
def dedupStep (seen : List (String × Row)) (row : Row) : Option (List (String × Row)) :=
  match resolveAmount row with
  | none => none
  | some amount =>
    match lookupSeen seen (dedupKey row) with
    | some exist =>
      match resolveAmount exist with
      | none => none
      | some existing_amt =>
        if existing_amt < amount then some (updateSeen seen (dedupKey row) row)
        else some seen
    | none => some (seen ++ [(dedupKey row, row)])

/-- Embedding of filter 2 of categorize_dataset: deduplicate by key,
keeping the higher loss, and return the surviving rows in first-seen
insertion order (list(seen.values())). -/
def dedupe (rows : List Row) : Option (List Row) :=
  (rows.foldlM dedupStep []).map (fun s => s.map (fun e => e.2))

/-- Embedding of the assignment row["primitive"] = primitive on a dict. -/
def setPrimitive (row : Row) (p : String) : Row :=
  if hasKey row "primitive" then
    row.map (fun e => if e.1 == "primitive" then ("primitive", p) else e)
  else row ++ [("primitive", p)]

/-- Embedding of the final categorization loop body of categorize_dataset. -/
def categorizeRow (row : Row) : Row :=
  setPrimitive row (categorize_exploit (resolveTechnique row) (resolveTarget row))

/-- Embedding of categorize_dataset: the reading loop with its raw-mode
filters, then raw-mode deduplication, then classification of every
surviving row; none models an uncaught exception. -/
def categorize_dataset (rows : List Row) (raw_mode : Bool) : Option (List Row) :=
  match phase1 rows raw_mode with
  | none => none
  | some rows1 =>
    match (if raw_mode then dedupe rows1 else some rows1) with
    | none => none
    | some rows2 => some (rows2.map categorizeRow)

/-- Category report order of compute_base_rates. -/
def CATEGORY_ORDER : List String :=
  ["CONTRACT", "OPERATIONAL", "ORACLE", "GOVERNANCE"]

/-- Embedding of Counter(r["primitive"] for r in results).get(p, 0): the
number of rows whose primitive field holds p. -/
def countPrimitive (results : List Row) (p : String) : Nat :=
  (results.filter (fun r => rowGet r "primitive" == some p)).length

/-- Embedding of compute_base_rates: for each of the four categories, the
base_rate entry n_p / (N * T). The percent-string and basis-point entries
of the source are string formatting of this same rational and are not
separately modelled. -/
def compute_base_rates (results : List Row) (N T : ℚ) : List (String × ℚ) :=
  CATEGORY_ORDER.map (fun p => (p, (countPrimitive results p : ℚ) / (N * T)))

/-- The base rate of one category in the table of compute_base_rates. -/
def baseRate (results : List Row) (N T : ℚ) (p : String) : ℚ :=
  (((compute_base_rates results N T).find? (fun e => e.1 == p)).map (fun e => e.2)).getD 0

/-- Odds presentation of combine_risks: the string "1 in N" carries the
integer int(1 / p_combined); all-zero input reports "negligible". -/
inductive Odds where
  | oneIn (n : ℤ)
  | negligible
deriving DecidableEq

/-- Result dict of combine_risks. The combined_risk_pct entry of the
source is string formatting of combined_risk and is not separately
modelled. -/
structure CombinedRiskResult where
  combined_risk : ℚ
  odds : Odds
  contributions : List (String × ℚ)
deriving DecidableEq

/-- Embedding of marginal = p * reduce(mul, others, 1) where others are
the complements 1 - x of every entry whose key differs from the one at
hand. -/
def marginalOf (primitives : List (String × ℚ)) (e : String × ℚ) : ℚ :=
  e.2 * ((primitives.filter (fun x => x.1 != e.1)).map (fun x => 1 - x.2)).foldl (fun a b => a * b) 1

/-- Embedding of combine_risks: the independent-event union probability,
the odds presentation (negligible when the combined probability is not
positive), and the per-category contributions marginal / p_combined,
defined as 0 when the combined probability is not positive. -/
def combine_risks (primitives : List (String × ℚ)) : CombinedRiskResult :=
  let p_combined := 1 - (primitives.map (fun e => 1 - e.2)).foldl (fun a b => a * b) 1
  { combined_risk := p_combined
    odds := if 0 < p_combined then Odds.oneIn ⌊1 / p_combined⌋ else Odds.negligible
    contributions := primitives.map (fun e =>
      (e.1, if 0 < p_combined then marginalOf primitives e / p_combined else 0)) }

/-- Product of the complements of the supplied probabilities, the
quantity reduce(mul, [1 - p ...], 1) of combine_risks in List.prod form. -/
def prodComp (l : List (String × ℚ)) : ℚ :=
  (l.map (fun e => 1 - e.2)).prod

/-- Sum of the unnormalized per-category marginals of combine_risks. -/
def sumMarg (l : List (String × ℚ)) : ℚ :=
  (l.map (fun e => marginalOf l e)).sum

/-- Sum of the per-category contributions reported by combine_risks, the
quantity the spec asserts to be 1. -/
def contribSum (l : List (String × ℚ)) : ℚ :=
  ((combine_risks l).contributions.map (fun c => c.2)).sum

/-! Shared helper lemmas. -/

lemma amountRaw_of_hasKey (row : Row) (h : hasKey row "amount" = true) :
    amountRaw row = rowGet row "amount" := by
  unfold amountRaw
  cases hv : rowGet row "amount" with
  | none => simp [hasKey, hv] at h
  | some v => rfl

lemma resolveTechnique_of_hasKey (row : Row) (h : hasKey row "technique" = true) :
    resolveTechnique row = (rowGet row "technique").getD "" := by
  unfold resolveTechnique
  cases hv : rowGet row "technique" with
  | none => simp [hasKey, hv] at h
  | some v => rfl

lemma foldl_mul_eq_prod (l : List ℚ) : l.foldl (fun a b => a * b) 1 = l.prod := by
  rw [List.prod_eq_foldl]

/-! Claim theorems. -/

/-- Claim C2 (code evidence for the bug): a row whose amount field holds
the malformed non-empty string N/A makes the pipeline raise ValueError,
in the embedding return none, in both modes, instead of treating the
amount as zero as the spec requires. -/
theorem C2_malformed_amount_raises :
    resolveAmount [("name", "x"), ("technique", "hack"), ("amount", "N/A")] = none ∧
    categorize_dataset [[("name", "x"), ("technique", "hack"), ("amount", "N/A")]] false = none ∧
    categorize_dataset [[("name", "x"), ("technique", "hack"), ("amount", "N/A")]] true = none := by
  refine ⟨by decide, by decide, by decide⟩

/-- Claim C3: categorize_exploit agrees with the prioritized
first-match-wins evaluation of the four keyword lists in the order
GOVERNANCE, ORACLE, OPERATIONAL, CONTRACT; any text with a GOVERNANCE
keyword is classified GOVERNANCE regardless of other matches, and the
text admin key reentrancy bug, which also contains the CONTRACT keyword
reentrancy, is classified GOVERNANCE. -/
theorem C3_precedence_first_match (technique target_type : String) :
    categorize_exploit technique target_type = firstMatchCategory technique target_type ∧
    (anyKeyword GOVERNANCE_KEYWORDS (strLower (technique ++ " " ++ target_type)) = true →
      categorize_exploit technique target_type = "GOVERNANCE") ∧
    categorize_exploit "admin key reentrancy bug" "" = "GOVERNANCE" := by
  refine ⟨?_, ?_, by decide⟩
  · unfold categorize_exploit firstMatchCategory PRECEDENCE
    cases hg : anyKeyword GOVERNANCE_KEYWORDS (strLower (technique ++ " " ++ target_type)) <;>
    cases ho : anyKeyword ORACLE_KEYWORDS (strLower (technique ++ " " ++ target_type)) <;>
    cases hop : anyKeyword OPERATIONAL_KEYWORDS (strLower (technique ++ " " ++ target_type)) <;>
    cases hc : anyKeyword CONTRACT_KEYWORDS (strLower (technique ++ " " ++ target_type)) <;>
    simp [List.find?, hg, ho, hop, hc]
  · intro h
    simp [categorize_exploit, h]

/-- Witness for C3 at the concrete text admin key reentrancy bug, whose
lower-cased form contains the GOVERNANCE keyword admin key. -/
theorem C3_witness :
    categorize_exploit "admin key reentrancy bug" "" =
      firstMatchCategory "admin key reentrancy bug" "" ∧
    categorize_exploit "admin key reentrancy bug" "" = "GOVERNANCE" := by
  have h := C3_precedence_first_match "admin key reentrancy bug" ""
  exact ⟨h.1, h.2.1 (by decide)⟩

/-- Claim C8: on text with no keyword from any of the four lists the
classifier returns CONTRACT; its output is always one of the four
categories and never UNCATEGORIZED, and the empty text gives CONTRACT. -/
theorem C8_fallback_contract (technique target_type : String) :
    ((anyKeyword GOVERNANCE_KEYWORDS (strLower (technique ++ " " ++ target_type)) = false ∧
      anyKeyword ORACLE_KEYWORDS (strLower (technique ++ " " ++ target_type)) = false ∧
      anyKeyword OPERATIONAL_KEYWORDS (strLower (technique ++ " " ++ target_type)) = false ∧
      anyKeyword CONTRACT_KEYWORDS (strLower (technique ++ " " ++ target_type)) = false) →
      categorize_exploit technique target_type = "CONTRACT") ∧
    (categorize_exploit technique target_type = "CONTRACT" ∨
     categorize_exploit technique target_type = "OPERATIONAL" ∨
     categorize_exploit technique target_type = "ORACLE" ∨
     categorize_exploit technique target_type = "GOVERNANCE") ∧
    categorize_exploit technique target_type ≠ "UNCATEGORIZED" ∧
    categorize_exploit "" "" = "CONTRACT" := by
  refine ⟨?_, ?_, ?_, by decide⟩
  · rintro ⟨h1, h2, h3, h4⟩
    simp [categorize_exploit, h1, h2, h3, h4]
  · cases hg : anyKeyword GOVERNANCE_KEYWORDS (strLower (technique ++ " " ++ target_type)) <;>
    cases ho : anyKeyword ORACLE_KEYWORDS (strLower (technique ++ " " ++ target_type)) <;>
    cases hop : anyKeyword OPERATIONAL_KEYWORDS (strLower (technique ++ " " ++ target_type)) <;>
    cases hc : anyKeyword CONTRACT_KEYWORDS (strLower (technique ++ " " ++ target_type)) <;>
    simp [categorize_exploit, hg, ho, hop, hc]
  · cases hg : anyKeyword GOVERNANCE_KEYWORDS (strLower (technique ++ " " ++ target_type)) <;>
    cases ho : anyKeyword ORACLE_KEYWORDS (strLower (technique ++ " " ++ target_type)) <;>
    cases hop : anyKeyword OPERATIONAL_KEYWORDS (strLower (technique ++ " " ++ target_type)) <;>
    cases hc : anyKeyword CONTRACT_KEYWORDS (strLower (technique ++ " " ++ target_type)) <;>
    simp [categorize_exploit, hg, ho, hop, hc]

/-- Witness for C8 at the empty text, which matches no keyword. -/
theorem C8_witness :
    categorize_exploit "" "" = "CONTRACT" ∧
    categorize_exploit "" "" ≠ "UNCATEGORIZED" := by
  have h := C8_fallback_contract "" ""
  exact ⟨h.1 (by decide), h.2.2.1⟩

/-- Claim C10: field-alias resolution uses the fallback field only when
the first key is entirely absent: with the amount key present the
amount_m field is ignored (an empty amount resolves to zero even next to
a numeric amount_m), and with the technique key present the
classification field is ignored (an empty technique classifies from the
empty string, here CONTRACT, even though the classification text admin
key alone would classify GOVERNANCE). -/
theorem C10_alias_prefers_first_key (row : Row) :
    (hasKey row "amount" = true → amountRaw row = rowGet row "amount") ∧
    (hasKey row "technique" = true → resolveTechnique row = (rowGet row "technique").getD "") ∧
    resolveAmount [("amount", ""), ("amount_m", "5")] = some 0 ∧
    resolveTechnique [("technique", ""), ("classification", "admin key")] = "" ∧
    categorize_dataset [[("technique", ""), ("classification", "admin key")]] false =
      some [[("technique", ""), ("classification", "admin key"), ("primitive", "CONTRACT")]] ∧
    categorize_exploit "admin key" "" = "GOVERNANCE" := by
  exact ⟨amountRaw_of_hasKey row, resolveTechnique_of_hasKey row,
    by decide, by decide, by decide, by decide⟩

/-- Witness for C10 at a row carrying both alias pairs. -/
theorem C10_witness :
    amountRaw [("amount", "7"), ("technique", "flash loan"), ("amount_m", "9")] =
      rowGet [("amount", "7"), ("technique", "flash loan"), ("amount_m", "9")] "amount" ∧
    resolveTechnique [("amount", "7"), ("technique", "flash loan"), ("amount_m", "9")] =
      (rowGet [("amount", "7"), ("technique", "flash loan"), ("amount_m", "9")] "technique").getD "" := by
  have h := C10_alias_prefers_first_key [("amount", "7"), ("technique", "flash loan"), ("amount_m", "9")]
  exact ⟨h.1 (by decide), h.2.1 (by decide)⟩

/-- Claim C4: the combined probability is one minus the product of the
complements of every supplied probability, and on the example with
probabilities one tenth and one twentieth it is 29/200 = 0.145 with
contributions 19/29 and 9/29, within one ten-thousandth of 0.6552 and
0.3103 respectively. -/
theorem C4_combined_union_formula (primitives : List (String × ℚ)) :
    (combine_risks primitives).combined_risk =
      1 - (primitives.map (fun e => 1 - e.2)).prod ∧
    (combine_risks [("A", 1 / 10), ("B", 1 / 20)]).combined_risk = 29 / 200 ∧
    (combine_risks [("A", 1 / 10), ("B", 1 / 20)]).contributions =
      [("A", 19 / 29), ("B", 9 / 29)] ∧
    |(19 : ℚ) / 29 - 0.6552| < 1 / 10000 ∧ |(9 : ℚ) / 29 - 0.3103| < 1 / 10000 := by
  refine ⟨?_, ?_, ?_, ?_, ?_⟩
  · simp only [combine_risks, foldl_mul_eq_prod]
  · simp [combine_risks]
    norm_num
  · simp [combine_risks, marginalOf]
    norm_num
  · rw [abs_lt]
    constructor <;> norm_num
  · rw [abs_lt]
    constructor <;> norm_num

/-- Claim C9: an empty mapping, and more generally any mapping whose
probabilities are all zero, yields combined probability exactly zero,
contribution zero for every supplied category, and negligible odds,
raising no exception (the embedding is a total function). -/
theorem C9_degenerate_all_zero (primitives : List (String × ℚ))
    (h : ∀ e ∈ primitives, e.2 = 0) :
    (combine_risks primitives).combined_risk = 0 ∧
    (∀ c ∈ (combine_risks primitives).contributions, c.2 = 0) ∧
    (combine_risks primitives).odds = Odds.negligible := by
  have hprod : (primitives.map (fun e => 1 - e.2)).foldl (fun a b => a * b) 1 = 1 := by
    rw [foldl_mul_eq_prod]
    apply List.prod_eq_one
    intro x hx
    rcases List.mem_map.mp hx with ⟨e, he, rfl⟩
    rw [h e he]; ring
  refine ⟨?_, ?_, ?_⟩
  · simp [combine_risks, hprod]
  · intro c hc
    simp only [combine_risks, hprod] at hc
    norm_num at hc
    rcases hc with ⟨a, -, rfl⟩
    rfl
  · simp [combine_risks, hprod]

/-- Witness for C9 at the empty mapping and at a two-category all-zero
mapping. -/
theorem C9_witness :
    (combine_risks []).combined_risk = 0 ∧
    (combine_risks []).odds = Odds.negligible ∧
    (combine_risks [("A", 0), ("B", 0)]).combined_risk = 0 ∧
    (∀ c ∈ (combine_risks [("A", 0), ("B", 0)]).contributions, c.2 = 0) ∧
    (combine_risks [("A", 0), ("B", 0)]).odds = Odds.negligible := by
  have h0 := C9_degenerate_all_zero [] (by simp)
  have h2 := C9_degenerate_all_zero [("A", 0), ("B", 0)] (by simp)
  exact ⟨h0.1, h0.2.2, h2.1, h2.2.1, h2.2.2⟩

/-- Base rate of a listed category unfolds to count over N times T. -/
lemma baseRate_eq (results : List Row) (N T : ℚ) (p : String)
    (hp : p ∈ CATEGORY_ORDER) :
    baseRate results N T p = (countPrimitive results p : ℚ) / (N * T) := by
  fin_cases hp <;> rfl

/-- Unfolding of the raw-mode reading-loop body once the amount of the
row resolves to a given rational. -/
lemma phase1Step_true_char (acc : List Row) (row : Row) (a : ℚ)
    (ha : resolveAmount row = some a) :
    phase1Step true acc row =
      if hasKey row "amount_m" then
        (if a < 1 / 10 then some acc
         else if isCefi row then some acc else some (acc ++ [row]))
      else
        (if a < 100000 then some acc
         else if isCefi row then some acc else some (acc ++ [row])) := by
  unfold phase1Step
  rw [ha]
  rfl

/-- Claim C6: in raw mode the de-minimis filter drops a row exactly when
its resolved amount is below 100000 dollars, which for a row carrying the
millions-unit field amount_m means below 0.1; at or above the threshold
the row survives (when it is not CeFi-excluded). The hypothesis that a
row does not carry both amount fields is the data-model invariant of the
spec, which declares them mutually exclusive; it is what makes the
branch on the amount_m key agree with the unit of the resolved amount. -/
theorem C6_de_minimis_threshold (row : Row) (acc : List Row) (a : ℚ)
    (hx : ¬(hasKey row "amount" = true ∧ hasKey row "amount_m" = true))
    (ha : resolveAmount row = some a) :
    ((if hasKey row "amount_m" then a * 1000000 else a) < 100000 →
      phase1Step true acc row = some acc) ∧
    (100000 ≤ (if hasKey row "amount_m" then a * 1000000 else a) →
      isCefi row = false →
      phase1Step true acc row = some (acc ++ [row])) := by
  cases hm : hasKey row "amount_m" with
  | true =>
    have hchar := phase1Step_true_char acc row a ha
    rw [hm, if_pos rfl] at hchar
    constructor
    · intro hlt
      rw [if_pos rfl] at hlt
      rw [hchar, if_pos (show a < 1 / 10 by linarith)]
    · intro hge hcefi
      rw [if_pos rfl] at hge
      rw [hchar, if_neg (show ¬ a < 1 / 10 by intro hcon; linarith),
        if_neg (show ¬ isCefi row = true by simp [hcefi])]
  | false =>
    have hchar := phase1Step_true_char acc row a ha
    rw [hm, if_neg Bool.false_ne_true] at hchar
    constructor
    · intro hlt
      rw [if_neg Bool.false_ne_true] at hlt
      rw [hchar, if_pos hlt]
    · intro hge hcefi
      rw [if_neg Bool.false_ne_true] at hge
      rw [hchar, if_neg (not_lt.mpr hge),
        if_neg (show ¬ isCefi row = true by simp [hcefi])]

/-- Witness for C6: a row worth 99999 dollars is dropped and a row worth
100000 dollars survives the raw-mode filters. -/
theorem C6_witness :
    phase1Step true [] [("amount", "99999")] = some [] ∧
    phase1Step true [] [("amount", "100000")] = some [[("amount", "100000")]] := by
  constructor
  · refine (C6_de_minimis_threshold [("amount", "99999")] [] 99999
      (by decide) (by decide)).1 ?_
    rw [show hasKey [("amount", "99999")] "amount_m" = false from by decide,
      if_neg Bool.false_ne_true]
    norm_num
  · refine (C6_de_minimis_threshold [("amount", "100000")] [] 100000
      (by decide) (by decide)).2 ?_ (by decide)
    rw [show hasKey [("amount", "100000")] "amount_m" = false from by decide,
      if_neg Bool.false_ne_true]

/-- Claim C7: compute_base_rates gives every category the rate count over
population size times observation years; doubling the population size
halves every rate exactly, and the ratio of the rates of two categories
with nonzero counts does not depend on the population size. -/
theorem C7_base_rate_linearity (results : List Row) (N N1 N2 T : ℚ) (p q : String)
    (hall : ∀ r ∈ results, hasKey r "primitive" = true)
    (hN : 0 < N) (hT : 0 < T) (hN1 : 0 < N1) (hN2 : 0 < N2)
    (hp : p ∈ CATEGORY_ORDER) (hq : q ∈ CATEGORY_ORDER)
    (hcp : countPrimitive results p ≠ 0) (hcq : countPrimitive results q ≠ 0) :
    baseRate results N T p = (countPrimitive results p : ℚ) / (N * T) ∧
    baseRate results (2 * N) T p = baseRate results N T p / 2 ∧
    baseRate results N1 T p / baseRate results N1 T q =
      baseRate results N2 T p / baseRate results N2 T q := by
  refine ⟨baseRate_eq results N T p hp, ?_, ?_⟩
  · rw [baseRate_eq results (2 * N) T p hp, baseRate_eq results N T p hp, div_div]
    congr 1
    ring
  · rw [baseRate_eq results N1 T p hp, baseRate_eq results N1 T q hq,
      baseRate_eq results N2 T p hp, baseRate_eq results N2 T q hq]
    have hq2 : (countPrimitive results q : ℚ) ≠ 0 := Nat.cast_ne_zero.mpr hcq
    field_simp

/-- Witness for C7 on a three-record set with one CONTRACT and two ORACLE
records, at population sizes 500, 300 and 1000 and the observation period
239/25 = 9.56 years of the source. -/
theorem C7_witness :
    baseRate [[("primitive", "CONTRACT")], [("primitive", "ORACLE")], [("primitive", "ORACLE")]]
        (2 * 500) (239 / 25) "ORACLE" =
      baseRate [[("primitive", "CONTRACT")], [("primitive", "ORACLE")], [("primitive", "ORACLE")]]
        500 (239 / 25) "ORACLE" / 2 ∧
    baseRate [[("primitive", "CONTRACT")], [("primitive", "ORACLE")], [("primitive", "ORACLE")]]
        300 (239 / 25) "ORACLE" /
      baseRate [[("primitive", "CONTRACT")], [("primitive", "ORACLE")], [("primitive", "ORACLE")]]
        300 (239 / 25) "CONTRACT" =
    baseRate [[("primitive", "CONTRACT")], [("primitive", "ORACLE")], [("primitive", "ORACLE")]]
        1000 (239 / 25) "ORACLE" /
      baseRate [[("primitive", "CONTRACT")], [("primitive", "ORACLE")], [("primitive", "ORACLE")]]
        1000 (239 / 25) "CONTRACT" := by
  have h := C7_base_rate_linearity
    [[("primitive", "CONTRACT")], [("primitive", "ORACLE")], [("primitive", "ORACLE")]]
    500 300 1000 (239 / 25) "ORACLE" "CONTRACT"
    (by decide) (by norm_num) (by norm_num) (by norm_num) (by norm_num)
    (by decide) (by decide) (by decide) (by decide)
  exact ⟨h.2.1, h.2.2⟩

/-! Lemmas for the contribution-sum analysis of combine_risks. -/

lemma marginalOf_eq_prod (l : List (String × ℚ)) (e : String × ℚ) :
    marginalOf l e =
      e.2 * ((l.filter (fun y => y.1 != e.1)).map (fun y => 1 - y.2)).prod := by
  rw [marginalOf, foldl_mul_eq_prod]

lemma combined_risk_eq (l : List (String × ℚ)) :
    (combine_risks l).combined_risk = 1 - prodComp l := by
  simp only [combine_risks, foldl_mul_eq_prod, prodComp]

lemma prodComp_cons (e : String × ℚ) (t : List (String × ℚ)) :
    prodComp (e :: t) = (1 - e.2) * prodComp t := by
  simp [prodComp]

lemma marginalOf_cons_ne (n : String) (x : ℚ) (t : List (String × ℚ))
    (e : String × ℚ) (hne : e.1 ≠ n) :
    marginalOf ((n, x) :: t) e = (1 - x) * marginalOf t e := by
  rw [marginalOf_eq_prod, marginalOf_eq_prod]
  have hcond : (((n, x) : String × ℚ).1 != e.1) = true := by
    simp only [bne_iff_ne]
    exact fun h => hne h.symm
  rw [List.filter_cons]
  simp only [hcond, if_true]
  simp only [List.map_cons, List.prod_cons]
  ring

lemma sumMarg_cons (n : String) (x : ℚ) (t : List (String × ℚ))
    (hn : ∀ e ∈ t, e.1 ≠ n) :
    sumMarg ((n, x) :: t) = x * prodComp t + (1 - x) * sumMarg t := by
  have hhead : marginalOf ((n, x) :: t) (n, x) = x * prodComp t := by
    rw [marginalOf_eq_prod]
    have hcond : (((n, x) : String × ℚ).1 != ((n, x) : String × ℚ).1) = false := by
      simp
    rw [List.filter_cons]
    simp only [hcond]
    rw [if_neg Bool.false_ne_true]
    have hfix : t.filter (fun y => y.1 != ((n, x) : String × ℚ).1) = t := by
      apply List.filter_eq_self.mpr
      intro e he
      simp only [bne_iff_ne]
      exact hn e he
    rw [hfix, prodComp]
  have htail : t.map (fun e => marginalOf ((n, x) :: t) e) =
      t.map (fun e => (1 - x) * marginalOf t e) := by
    apply List.map_congr_left
    intro e he
    exact marginalOf_cons_ne n x t e (hn e he)
  rw [sumMarg, List.map_cons, List.sum_cons, hhead, htail,
    List.sum_map_mul_left, sumMarg]

lemma prodComp_pos (l : List (String × ℚ))
    (hb : ∀ e ∈ l, 0 ≤ e.2 ∧ e.2 < 1) : 0 < prodComp l := by
  rw [prodComp]
  apply List.prod_pos
  intro a ha
  rcases List.mem_map.mp ha with ⟨e, he, rfl⟩
  have := (hb e he).2
  linarith

lemma prodComp_le_one (l : List (String × ℚ))
    (hb : ∀ e ∈ l, 0 ≤ e.2 ∧ e.2 < 1) : prodComp l ≤ 1 := by
  induction l with
  | nil => simp [prodComp]
  | cons e t ih =>
    have he := hb e (List.mem_cons_self e t)
    have hbt : ∀ y ∈ t, 0 ≤ y.2 ∧ y.2 < 1 := fun y hy => hb y (List.mem_cons_of_mem e hy)
    have h1 := prodComp_pos t hbt
    have h2 := ih hbt
    rw [prodComp_cons]
    have h3 : 1 - e.2 ≤ 1 := by linarith [he.1]
    have h4 : (0 : ℚ) ≤ prodComp t := le_of_lt h1
    exact mul_le_one₀ h3 h4 h2

lemma prodComp_eq_one_iff (l : List (String × ℚ))
    (hb : ∀ e ∈ l, 0 ≤ e.2 ∧ e.2 < 1) :
    prodComp l = 1 ↔ ∀ e ∈ l, e.2 = 0 := by
  induction l with
  | nil => simp [prodComp]
  | cons e t ih =>
    have he := hb e (List.mem_cons_self e t)
    have hbt : ∀ y ∈ t, 0 ≤ y.2 ∧ y.2 < 1 := fun y hy => hb y (List.mem_cons_of_mem e hy)
    have hPt_pos := prodComp_pos t hbt
    have hPt_le := prodComp_le_one t hbt
    rw [prodComp_cons, List.forall_mem_cons]
    constructor
    · intro h
      have hx0 : e.2 = 0 := by
        by_contra hx
        have hxpos : 0 < e.2 := lt_of_le_of_ne he.1 (Ne.symm hx)
        have hlt : (1 - e.2) * prodComp t ≤ 1 - e.2 :=
          mul_le_of_le_one_right (by linarith [he.2]) hPt_le
        linarith
      have hPt1 : prodComp t = 1 := by
        rw [hx0] at h
        linarith
      exact ⟨hx0, (ih hbt).mp hPt1⟩
    · rintro ⟨hx0, hall⟩
      rw [hx0, (ih hbt).mpr hall]
      ring

lemma sumMarg_of_all_zero (l : List (String × ℚ))
    (h : ∀ e ∈ l, e.2 = 0) : sumMarg l = 0 := by
  rw [sumMarg]
  apply List.sum_eq_zero
  intro a ha
  rcases List.mem_map.mp ha with ⟨e, he, rfl⟩
  rw [marginalOf, h e he]
  ring

lemma countNZ_eq_zero_iff (t : List (String × ℚ)) :
    (t.filter (fun e => decide (e.2 ≠ 0))).length = 0 ↔ ∀ e ∈ t, e.2 = 0 := by
  rw [List.length_eq_zero]
  constructor
  · intro h e he
    by_contra hne
    have hmem : e ∈ t.filter (fun e => decide (e.2 ≠ 0)) :=
      List.mem_filter.mpr ⟨he, by simp [hne]⟩
    rw [h] at hmem
    exact absurd hmem (List.not_mem_nil e)
  · intro h
    apply List.eq_nil_iff_forall_not_mem.mpr
    intro e hmem
    rcases List.mem_filter.mp hmem with ⟨he, hp⟩
    simp only [decide_eq_true_eq] at hp
    exact hp (h e he)

lemma sumMarg_le_and_eq_iff :
    ∀ (l : List (String × ℚ)),
      (l.map (fun e => e.1)).Nodup →
      (∀ e ∈ l, 0 ≤ e.2 ∧ e.2 < 1) →
      sumMarg l ≤ 1 - prodComp l ∧
        (sumMarg l = 1 - prodComp l ↔
          (l.filter (fun e => decide (e.2 ≠ 0))).length ≤ 1) := by
  intro l
  induction l with
  | nil =>
    intro _ _
    simp [sumMarg, prodComp]
  | cons e t ih =>
    intro hkeys hb
    obtain ⟨n, x⟩ := e
    have hx := hb (n, x) (List.mem_cons_self _ t)
    have hbt : ∀ y ∈ t, 0 ≤ y.2 ∧ y.2 < 1 := fun y hy => hb y (List.mem_cons_of_mem _ hy)
    rw [List.map_cons, List.nodup_cons] at hkeys
    have hn : ∀ y ∈ t, y.1 ≠ n := by
      intro y hy hcon
      exact hkeys.1 (hcon ▸ List.mem_map_of_mem (fun e => e.1) hy)
    obtain ⟨ihle, ihiff⟩ := ih hkeys.2 hbt
    have hPt_pos := prodComp_pos t hbt
    have hPt_le := prodComp_le_one t hbt
    rw [sumMarg_cons n x t hn, prodComp_cons]
    dsimp only
    have hx1 : (0 : ℚ) < 1 - x := by linarith [hx.2]
    constructor
    · have h1 : (1 - x) * sumMarg t ≤ (1 - x) * (1 - prodComp t) :=
        mul_le_mul_of_nonneg_left ihle (le_of_lt hx1)
      have h2 : 0 ≤ x * (1 - prodComp t) := mul_nonneg hx.1 (by linarith)
      nlinarith
    · by_cases hx0 : x = 0
      · subst hx0
        have hcount : (((n, (0 : ℚ)) :: t).filter (fun e => decide (e.2 ≠ 0))).length =
            (t.filter (fun e => decide (e.2 ≠ 0))).length := by
          simp [List.filter_cons]
        rw [hcount]
        constructor
        · intro h
          apply ihiff.mp
          nlinarith
        · intro h
          have := ihiff.mpr h
          nlinarith
      · have hcount : (((n, x) :: t).filter (fun e => decide (e.2 ≠ 0))).length =
            (t.filter (fun e => decide (e.2 ≠ 0))).length + 1 := by
          simp [List.filter_cons, hx0]
        rw [hcount]
        have hxpos : 0 < x := lt_of_le_of_ne hx.1 (Ne.symm hx0)
        constructor
        · intro h
          have hA : 0 ≤ x * (1 - prodComp t) := mul_nonneg hx.1 (by linarith)
          have hB : 0 ≤ (1 - x) * ((1 - prodComp t) - sumMarg t) :=
            mul_nonneg (le_of_lt hx1) (by linarith)
          have hsum0 : x * (1 - prodComp t) + (1 - x) * ((1 - prodComp t) - sumMarg t) = 0 := by
            nlinarith
          have hA0 : x * (1 - prodComp t) = 0 := by nlinarith
          have hPt1 : prodComp t = 1 := by
            rcases mul_eq_zero.mp hA0 with hc | hc
            · exact absurd hc (ne_of_gt hxpos)
            · linarith
          have hallzero : ∀ y ∈ t, y.2 = 0 := (prodComp_eq_one_iff t hbt).mp hPt1
          have hcz : (t.filter (fun e => decide (e.2 ≠ 0))).length = 0 :=
            (countNZ_eq_zero_iff t).mpr hallzero
          omega
        · intro h
          have hcz : (t.filter (fun e => decide (e.2 ≠ 0))).length = 0 := by omega
          have hallzero : ∀ y ∈ t, y.2 = 0 := (countNZ_eq_zero_iff t).mp hcz
          have hPt1 : prodComp t = 1 := (prodComp_eq_one_iff t hbt).mpr hallzero
          have hSt0 : sumMarg t = 0 := sumMarg_of_all_zero t hallzero
          rw [hPt1, hSt0]
          ring

lemma contribSum_eq (l : List (String × ℚ)) (hpc : 0 < 1 - prodComp l) :
    contribSum l = sumMarg l / (1 - prodComp l) := by
  rw [contribSum, sumMarg]
  have hmap : (combine_risks l).contributions.map (fun c => c.2) =
      l.map (fun e => marginalOf l e / (1 - prodComp l)) := by
    simp only [combine_risks, foldl_mul_eq_prod]
    rw [List.map_map]
    apply List.map_congr_left
    intro e he
    simp only [Function.comp_apply]
    rw [show (1 - (l.map (fun e => 1 - e.2)).prod) = 1 - prodComp l from rfl, if_pos hpc]
  rw [hmap]
  simp only [div_eq_mul_inv]
  rw [List.sum_map_mul_right]

/-- Claim C1 (amended): for distinct category names, probabilities in
[0,1) and at least one nonzero probability, the contributions reported by
combine_risks sum to at most 1, and they sum to exactly 1 precisely when
exactly one of the supplied probabilities is nonzero; with two or more
nonzero probabilities the sum falls strictly short of 1, so the original
normalization claim fails. -/
theorem C1_contribution_sum_bound (l : List (String × ℚ))
    (hkeys : (l.map (fun e => e.1)).Nodup)
    (hb : ∀ e ∈ l, 0 ≤ e.2 ∧ e.2 < 1)
    (hnz : ∃ e ∈ l, e.2 ≠ 0) :
    contribSum l ≤ 1 ∧
    (contribSum l = 1 ↔ (l.filter (fun e => decide (e.2 ≠ 0))).length = 1) := by
  have hPlt : prodComp l < 1 := by
    apply lt_of_le_of_ne (prodComp_le_one l hb)
    intro h1
    rcases hnz with ⟨e, he, hne⟩
    exact hne ((prodComp_eq_one_iff l hb).mp h1 e he)
  have hpc : 0 < 1 - prodComp l := by linarith
  have hcs := contribSum_eq l hpc
  obtain ⟨hle, hiff⟩ := sumMarg_le_and_eq_iff l hkeys hb
  have hge1 : 1 ≤ (l.filter (fun e => decide (e.2 ≠ 0))).length := by
    rcases hnz with ⟨e, he, hne⟩
    have hmem : e ∈ l.filter (fun e => decide (e.2 ≠ 0)) :=
      List.mem_filter.mpr ⟨he, by simp [hne]⟩
    refine List.length_pos.mpr ?_
    intro h0
    rw [h0] at hmem
    exact absurd hmem (List.not_mem_nil e)
  constructor
  · rw [hcs, div_le_one hpc]
    exact hle
  · rw [hcs, div_eq_one_iff_eq (ne_of_gt hpc), hiff]
    omega

/-- Counterexample to claim C1 as stated: on the probabilities one tenth
and one twentieth the contributions of combine_risks sum to 28/29, which
is not 1 and misses 1 by more than one hundredth, far outside any
floating-point tolerance. -/
theorem C1_counterexample :
    contribSum [("A", 1 / 10), ("B", 1 / 20)] = 28 / 29 ∧
    contribSum [("A", 1 / 10), ("B", 1 / 20)] ≠ 1 ∧
    1 / 100 < 1 - contribSum [("A", 1 / 10), ("B", 1 / 20)] := by
  have hs : contribSum [("A", 1 / 10), ("B", 1 / 20)] = 28 / 29 := by
    simp [contribSum, combine_risks, marginalOf]
    norm_num
  refine ⟨hs, by rw [hs]; norm_num, by rw [hs]; norm_num⟩

/-- Witness for C1 at a mapping with exactly one nonzero probability,
where the contribution sum does reach 1. -/
theorem C1_witness :
    contribSum [("A", 1 / 10), ("B", 0)] ≤ 1 ∧
    contribSum [("A", 1 / 10), ("B", 0)] = 1 := by
  have h := C1_contribution_sum_bound [("A", 1 / 10), ("B", 0)]
    (by decide)
    (by intro e he; fin_cases he <;> constructor <;> norm_num)
    ⟨("A", 1 / 10), by simp, by norm_num⟩
  refine ⟨h.1, h.2.mpr ?_⟩
  norm_num [List.filter]


/-! Lemmas for the deduplication analysis of categorize_dataset. -/

lemma lookupSeen_cons (e : String × Row) (t : List (String × Row)) (k : String) :
    lookupSeen (e :: t) k = if (e.1 == k) = true then some e.2 else lookupSeen t k := by
  cases hek : (e.1 == k) with
  | true => simp [lookupSeen, List.find?, hek]
  | false => simp [lookupSeen, List.find?, hek]

lemma lookupSeen_eq_none_iff (s : List (String × Row)) (k : String) :
    lookupSeen s k = none ↔ ∀ e ∈ s, e.1 ≠ k := by
  induction s with
  | nil => simp [lookupSeen]
  | cons e t ih =>
    rw [lookupSeen_cons]
    by_cases hek : (e.1 == k) = true
    · rw [if_pos hek]
      simp only [beq_iff_eq] at hek
      constructor
      · intro hcon
        simp at hcon
      · intro hall
        exact absurd hek (hall e (List.mem_cons_self e t))
    · rw [if_neg hek, ih, List.forall_mem_cons]
      simp only [beq_iff_eq] at hek
      simp [hek]

lemma lookupSeen_some_mem (s : List (String × Row)) (k : String) (v : Row)
    (h : lookupSeen s k = some v) : (k, v) ∈ s := by
  induction s with
  | nil => simp [lookupSeen] at h
  | cons e t ih =>
    rw [lookupSeen_cons] at h
    by_cases hek : (e.1 == k) = true
    · rw [if_pos hek] at h
      simp only [Option.some.injEq] at h
      simp only [beq_iff_eq] at hek
      obtain ⟨k2, v2⟩ := e
      dsimp only at hek h
      subst hek
      subst h
      exact List.mem_cons_self _ _
    · rw [if_neg hek] at h
      exact List.mem_cons_of_mem e (ih h)

lemma lookupSeen_append_left (s1 s2 : List (String × Row)) (k : String) (v : Row)
    (h : lookupSeen s1 k = some v) : lookupSeen (s1 ++ s2) k = some v := by
  induction s1 with
  | nil => simp [lookupSeen] at h
  | cons e t ih =>
    rw [lookupSeen_cons] at h
    rw [List.cons_append, lookupSeen_cons]
    by_cases hek : (e.1 == k) = true
    · rw [if_pos hek] at h ⊢
      exact h
    · rw [if_neg hek] at h ⊢
      exact ih h

lemma lookupSeen_append_single (s : List (String × Row)) (k : String) (v : Row)
    (h : lookupSeen s k = none) : lookupSeen (s ++ [(k, v)]) k = some v := by
  induction s with
  | nil => simp [lookupSeen_cons, lookupSeen]
  | cons e t ih =>
    rw [lookupSeen_cons] at h
    rw [List.cons_append, lookupSeen_cons]
    by_cases hek : (e.1 == k) = true
    · rw [if_pos hek] at h
      simp at h
    · rw [if_neg hek] at h ⊢
      exact ih h

lemma updateSeen_keys (s : List (String × Row)) (k : String) (row : Row) :
    (updateSeen s k row).map (fun e => e.1) = s.map (fun e => e.1) := by
  unfold updateSeen
  rw [List.map_map]
  apply List.map_congr_left
  intro e he
  simp only [Function.comp_apply]
  by_cases hek : (e.1 == k) = true
  · rw [if_pos hek]
    simp only [beq_iff_eq] at hek
    exact hek.symm
  · rw [if_neg hek]

lemma updateSeen_mem (s : List (String × Row)) (k : String) (row : Row)
    (e : String × Row) (he : e ∈ updateSeen s k row) :
    e = (k, row) ∨ (e ∈ s ∧ e.1 ≠ k) := by
  unfold updateSeen at he
  rcases List.mem_map.mp he with ⟨x, hx, hxe⟩
  by_cases hxk : (x.1 == k) = true
  · rw [if_pos hxk] at hxe
    exact Or.inl hxe.symm
  · rw [if_neg hxk] at hxe
    refine Or.inr ?_
    rw [← hxe]
    simp only [beq_iff_eq] at hxk
    exact ⟨hx, hxk⟩

lemma lookupSeen_update_self (s : List (String × Row)) (k : String) (row v : Row)
    (h : lookupSeen s k = some v) :
    lookupSeen (updateSeen s k row) k = some row := by
  induction s with
  | nil => simp [lookupSeen] at h
  | cons e t ih =>
    rw [lookupSeen_cons] at h
    show lookupSeen ((if (e.1 == k) = true then (k, row) else e) :: updateSeen t k row) k =
      some row
    rw [lookupSeen_cons]
    by_cases hek : (e.1 == k) = true
    · rw [if_pos hek]
      simp
    · rw [if_neg hek] at h
      rw [if_neg hek, if_neg hek]
      exact ih h

lemma lookupSeen_update_other (s : List (String × Row)) (k k2 : String) (row : Row)
    (h2 : k2 ≠ k) :
    lookupSeen (updateSeen s k row) k2 = lookupSeen s k2 := by
  induction s with
  | nil => rfl
  | cons e t ih =>
    show lookupSeen ((if (e.1 == k) = true then (k, row) else e) :: updateSeen t k row) k2 = _
    rw [lookupSeen_cons, lookupSeen_cons]
    by_cases hek : (e.1 == k) = true
    · rw [if_pos hek]
      simp only [beq_iff_eq] at hek
      have hc1 : ¬(((k, row) : String × Row).1 == k2) = true := by
        simp only [beq_iff_eq]
        exact fun hcon => h2 hcon.symm
      have hc2 : ¬(e.1 == k2) = true := by
        simp only [beq_iff_eq, hek]
        exact fun hcon => h2 hcon.symm
      rw [if_neg hc1, if_neg hc2]
      exact ih
    · rw [if_neg hek]
      by_cases he2 : (e.1 == k2) = true
      · rw [if_pos he2, if_pos he2]
      · rw [if_neg he2, if_neg he2]
        exact ih

lemma dedupStep_fail (seen : List (String × Row)) (row : Row)
    (ha : resolveAmount row = none) : dedupStep seen row = none := by
  unfold dedupStep
  rw [ha]

lemma dedupStep_fail2 (seen : List (String × Row)) (row exist : Row) (a : ℚ)
    (ha : resolveAmount row = some a)
    (hl : lookupSeen seen (dedupKey row) = some exist)
    (hb : resolveAmount exist = none) : dedupStep seen row = none := by
  unfold dedupStep
  rw [ha, hl]
  show (match resolveAmount exist with
    | none => none
    | some existing_amt =>
      if existing_amt < a then some (updateSeen seen (dedupKey row) row)
      else some seen) = none
  rw [hb]

lemma dedupStep_insert (seen : List (String × Row)) (row : Row) (a : ℚ)
    (ha : resolveAmount row = some a)
    (hl : lookupSeen seen (dedupKey row) = none) :
    dedupStep seen row = some (seen ++ [(dedupKey row, row)]) := by
  unfold dedupStep
  rw [ha, hl]

lemma dedupStep_update (seen : List (String × Row)) (row exist : Row) (a b : ℚ)
    (ha : resolveAmount row = some a)
    (hl : lookupSeen seen (dedupKey row) = some exist)
    (hb : resolveAmount exist = some b) (hab : b < a) :
    dedupStep seen row = some (updateSeen seen (dedupKey row) row) := by
  unfold dedupStep
  rw [ha, hl]
  show (match resolveAmount exist with
    | none => none
    | some existing_amt =>
      if existing_amt < a then some (updateSeen seen (dedupKey row) row)
      else some seen) = some (updateSeen seen (dedupKey row) row)
  rw [hb]
  show (if b < a then some (updateSeen seen (dedupKey row) row) else some seen) =
    some (updateSeen seen (dedupKey row) row)
  rw [if_pos hab]

lemma dedupStep_keep (seen : List (String × Row)) (row exist : Row) (a b : ℚ)
    (ha : resolveAmount row = some a)
    (hl : lookupSeen seen (dedupKey row) = some exist)
    (hb : resolveAmount exist = some b) (hab : ¬b < a) :
    dedupStep seen row = some seen := by
  unfold dedupStep
  rw [ha, hl]
  show (match resolveAmount exist with
    | none => none
    | some existing_amt =>
      if existing_amt < a then some (updateSeen seen (dedupKey row) row)
      else some seen) = some seen
  rw [hb]
  show (if b < a then some (updateSeen seen (dedupKey row) row) else some seen) = some seen
  rw [if_neg hab]

/-- Invariant of the deduplication fold: the accumulator has pairwise
distinct keys, stores only processed rows under their own key, and for
every processed row the entry stored under its key has an at least as
large resolved amount. -/
lemma dedup_fold_invariant :
    ∀ (rest : List Row) (seen final : List (String × Row)) (processed : List Row),
      List.foldlM dedupStep seen rest = some final →
      (seen.map (fun e => e.1)).Nodup →
      (∀ e ∈ seen, dedupKey e.2 = e.1 ∧ e.2 ∈ processed) →
      (∀ r ∈ processed, ∃ v, lookupSeen seen (dedupKey r) = some v ∧
        ∃ a b, resolveAmount r = some a ∧ resolveAmount v = some b ∧ a ≤ b) →
      ((final.map (fun e => e.1)).Nodup ∧
       (∀ e ∈ final, dedupKey e.2 = e.1 ∧ e.2 ∈ processed ++ rest) ∧
       (∀ r ∈ processed ++ rest, ∃ v, lookupSeen final (dedupKey r) = some v ∧
         ∃ a b, resolveAmount r = some a ∧ resolveAmount v = some b ∧ a ≤ b)) := by
  intro rest
  induction rest with
  | nil =>
    intro seen final processed h h1 h2 h3
    have hsf : seen = final := by
      rw [List.foldlM_nil] at h
      simpa using h
    subst hsf
    rw [List.append_nil]
    exact ⟨h1, h2, h3⟩
  | cons row rest ih =>
    intro seen final processed h h1 h2 h3
    rw [List.foldlM_cons] at h
    cases hstep : dedupStep seen row with
    | none =>
      rw [hstep] at h
      simp at h
    | some seen1 =>
      rw [hstep] at h
      have h' : List.foldlM dedupStep seen1 rest = some final := h
      cases ha : resolveAmount row with
      | none =>
        rw [dedupStep_fail seen row ha] at hstep
        exact absurd hstep (by simp)
      | some a =>
        cases hl : lookupSeen seen (dedupKey row) with
        | none =>
          rw [dedupStep_insert seen row a ha hl] at hstep
          have hs1 : seen1 = seen ++ [(dedupKey row, row)] := by
            injection hstep with hs
            exact hs.symm
          subst hs1
          have hfresh : ∀ e ∈ seen, e.1 ≠ dedupKey row :=
            (lookupSeen_eq_none_iff seen (dedupKey row)).mp hl
          have inv1 : ((seen ++ [(dedupKey row, row)]).map (fun e => e.1)).Nodup := by
            rw [List.map_append, List.nodup_append]
            refine ⟨h1, by simp, ?_⟩
            intro x hx hx2
            rcases List.mem_map.mp hx with ⟨e, he, rfl⟩
            simp only [List.map_cons, List.map_nil, List.mem_singleton] at hx2
            exact hfresh e he hx2
          have inv2 : ∀ e ∈ seen ++ [(dedupKey row, row)],
              dedupKey e.2 = e.1 ∧ e.2 ∈ processed ++ [row] := by
            intro e he
            rcases List.mem_append.mp he with he | he
            · obtain ⟨hk, hm⟩ := h2 e he
              exact ⟨hk, List.mem_append_left _ hm⟩
            · simp only [List.mem_singleton] at he
              subst he
              exact ⟨rfl, List.mem_append_right _ (by simp)⟩
          have inv3 : ∀ r ∈ processed ++ [row],
              ∃ v, lookupSeen (seen ++ [(dedupKey row, row)]) (dedupKey r) = some v ∧
                ∃ a2 b2, resolveAmount r = some a2 ∧ resolveAmount v = some b2 ∧ a2 ≤ b2 := by
            intro r hr
            rcases List.mem_append.mp hr with hr | hr
            · obtain ⟨v, hv, a2, b2, har, hav, hab⟩ := h3 r hr
              exact ⟨v, lookupSeen_append_left seen _ (dedupKey r) v hv, a2, b2, har, hav, hab⟩
            · simp only [List.mem_singleton] at hr
              rw [hr]
              exact ⟨row, lookupSeen_append_single seen (dedupKey row) row hl,
                a, a, ha, ha, le_refl a⟩
          have hres := ih (seen ++ [(dedupKey row, row)]) final (processed ++ [row]) h' inv1 inv2 inv3
          refine ⟨hres.1, ?_, ?_⟩
          · intro e he
            obtain ⟨hk, hm⟩ := hres.2.1 e he
            refine ⟨hk, ?_⟩
            simpa [List.append_assoc] using hm
          · intro r hr
            apply hres.2.2
            simpa [List.append_assoc] using hr
        | some exist =>
          cases hb : resolveAmount exist with
          | none =>
            rw [dedupStep_fail2 seen row exist a ha hl hb] at hstep
            exact absurd hstep (by simp)
          | some b =>
            have hexmem : (dedupKey row, exist) ∈ seen :=
              lookupSeen_some_mem seen (dedupKey row) exist hl
            by_cases hab : b < a
            · rw [dedupStep_update seen row exist a b ha hl hb hab] at hstep
              have hs1 : seen1 = updateSeen seen (dedupKey row) row := by
                injection hstep with hs
                exact hs.symm
              subst hs1
              have inv1 : ((updateSeen seen (dedupKey row) row).map (fun e => e.1)).Nodup := by
                rw [updateSeen_keys]
                exact h1
              have inv2 : ∀ e ∈ updateSeen seen (dedupKey row) row,
                  dedupKey e.2 = e.1 ∧ e.2 ∈ processed ++ [row] := by
                intro e he
                rcases updateSeen_mem seen (dedupKey row) row e he with he1 | ⟨he1, _⟩
                · subst he1
                  exact ⟨rfl, List.mem_append_right _ (by simp)⟩
                · obtain ⟨hk, hm⟩ := h2 e he1
                  exact ⟨hk, List.mem_append_left _ hm⟩
              have inv3 : ∀ r ∈ processed ++ [row],
                  ∃ v, lookupSeen (updateSeen seen (dedupKey row) row) (dedupKey r) = some v ∧
                    ∃ a2 b2, resolveAmount r = some a2 ∧ resolveAmount v = some b2 ∧ a2 ≤ b2 := by
                intro r hr
                rcases List.mem_append.mp hr with hr | hr
                · obtain ⟨v, hv, a2, b2, har, hav, hab2⟩ := h3 r hr
                  by_cases hk : dedupKey r = dedupKey row
                  · rw [hk] at hv
                    have hveq : v = exist := by
                      have h0 := hv.symm.trans hl
                      injection h0
                    rw [hveq] at hav
                    have hbeq : b2 = b := by
                      have h0 := hav.symm.trans hb
                      injection h0
                    refine ⟨row, ?_, a2, a, har, ha, ?_⟩
                    · rw [hk]
                      exact lookupSeen_update_self seen (dedupKey row) row exist hl
                    · rw [hbeq] at hab2
                      linarith
                  · refine ⟨v, ?_, a2, b2, har, hav, hab2⟩
                    rw [lookupSeen_update_other seen (dedupKey row) (dedupKey r) row hk]
                    exact hv
                · simp only [List.mem_singleton] at hr
                  rw [hr]
                  exact ⟨row, lookupSeen_update_self seen (dedupKey row) row exist hl,
                    a, a, ha, ha, le_refl a⟩
              have hres := ih (updateSeen seen (dedupKey row) row) final (processed ++ [row])
                h' inv1 inv2 inv3
              refine ⟨hres.1, ?_, ?_⟩
              · intro e he
                obtain ⟨hk, hm⟩ := hres.2.1 e he
                refine ⟨hk, ?_⟩
                simpa [List.append_assoc] using hm
              · intro r hr
                apply hres.2.2
                simpa [List.append_assoc] using hr
            · rw [dedupStep_keep seen row exist a b ha hl hb hab] at hstep
              have hs1 : seen1 = seen := by
                injection hstep with hs
                exact hs.symm
              rw [hs1] at h' 
              have inv2 : ∀ e ∈ seen, dedupKey e.2 = e.1 ∧ e.2 ∈ processed ++ [row] := by
                intro e he
                obtain ⟨hk, hm⟩ := h2 e he
                exact ⟨hk, List.mem_append_left _ hm⟩
              have inv3 : ∀ r ∈ processed ++ [row],
                  ∃ v, lookupSeen seen (dedupKey r) = some v ∧
                    ∃ a2 b2, resolveAmount r = some a2 ∧ resolveAmount v = some b2 ∧ a2 ≤ b2 := by
                intro r hr
                rcases List.mem_append.mp hr with hr | hr
                · exact h3 r hr
                · simp only [List.mem_singleton] at hr
                  rw [hr]
                  exact ⟨exist, hl, a, b, ha, hb, le_of_not_lt hab⟩
              have hres := ih seen final (processed ++ [row]) h' h1 inv2 inv3
              refine ⟨hres.1, ?_, ?_⟩
              · intro e he
                obtain ⟨hk, hm⟩ := hres.2.1 e he
                refine ⟨hk, ?_⟩
                simpa [List.append_assoc] using hm
              · intro r hr
                apply hres.2.2
                simpa [List.append_assoc] using hr

/-- Claim C5: raw-mode deduplication groups rows by the key built from
the lower-cased trimmed name and the date; the output keeps exactly one
row per key of the input (its keys are pairwise distinct and every input
key is represented), every kept row is an input row, the kept row of a
group carries a resolved amount at least as large as that of every group
member, and the two-row example with amounts 50 and 75 collapses to the
single row with amount 75. -/
theorem C5_dedup_keeps_max (rows out : List Row) (h : dedupe rows = some out) :
    (out.map dedupKey).Nodup ∧
    (∀ r ∈ out, r ∈ rows) ∧
    (∀ r ∈ rows, ∃ v ∈ out, dedupKey v = dedupKey r ∧
      ∃ a b, resolveAmount r = some a ∧ resolveAmount v = some b ∧ a ≤ b) ∧
    dedupe [[("name", "Proto"), ("date", "2021-01-01"), ("amount_m", "50")],
            [("name", "proto"), ("date", "2021-01-01"), ("amount_m", "75")]] =
      some [[("name", "proto"), ("date", "2021-01-01"), ("amount_m", "75")]] := by
  refine ?_
  unfold dedupe at h
  cases hf : List.foldlM dedupStep ([] : List (String × Row)) rows with
  | none =>
    rw [hf] at h
    simp at h
  | some s =>
    rw [hf] at h
    simp only [Option.map_some', Option.some.injEq] at h
    obtain ⟨hnd, hmem, hmax⟩ :=
      dedup_fold_invariant rows [] s [] hf (by simp) (by simp) (by simp)
    simp only [List.nil_append] at hmem hmax
    have hout : out = s.map (fun e => e.2) := h.symm
    subst hout
    refine ⟨?_, ?_, ?_, by decide⟩
    · have hk : (s.map (fun e => e.2)).map dedupKey = s.map (fun e => e.1) := by
        rw [List.map_map]
        apply List.map_congr_left
        intro e he
        simp only [Function.comp_apply]
        exact (hmem e he).1
      rw [hk]
      exact hnd
    · intro r hr
      rcases List.mem_map.mp hr with ⟨e, he, rfl⟩
      exact (hmem e he).2
    · intro r hr
      obtain ⟨v, hv, a, b, har, hav, hab⟩ := hmax r hr
      have hpair : (dedupKey r, v) ∈ s := lookupSeen_some_mem s (dedupKey r) v hv
      refine ⟨v, List.mem_map_of_mem (fun e => e.2) hpair, ?_, a, b, har, hav, hab⟩
      exact (hmem (dedupKey r, v) hpair).1

/-- Witness for C5 at the concrete two-row example: the surviving row is
the input row with the larger amount, its key group is a singleton, and
it dominates both inputs in resolved amount. -/
theorem C5_witness :
    (([[("name", "proto"), ("date", "2021-01-01"), ("amount_m", "75")]].map dedupKey).Nodup) ∧
    (∀ r ∈ [[("name", "proto"), ("date", "2021-01-01"), ("amount_m", "75")]],
      r ∈ [[("name", "Proto"), ("date", "2021-01-01"), ("amount_m", "50")],
           [("name", "proto"), ("date", "2021-01-01"), ("amount_m", "75")]]) ∧
    (∀ r ∈ [[("name", "Proto"), ("date", "2021-01-01"), ("amount_m", "50")],
            [("name", "proto"), ("date", "2021-01-01"), ("amount_m", "75")]],
      ∃ v ∈ [[("name", "proto"), ("date", "2021-01-01"), ("amount_m", "75")]],
        dedupKey v = dedupKey r ∧
        ∃ a b, resolveAmount r = some a ∧ resolveAmount v = some b ∧ a ≤ b) := by
  have h := C5_dedup_keeps_max
    [[("name", "Proto"), ("date", "2021-01-01"), ("amount_m", "50")],
     [("name", "proto"), ("date", "2021-01-01"), ("amount_m", "75")]]
    [[("name", "proto"), ("date", "2021-01-01"), ("amount_m", "75")]]
    (by decide)
  exact ⟨h.1, h.2.1, h.2.2.1⟩
